import Mathlib

/-!
Verification development for the `fold` core of the poly repository
(secondary-structure prediction engine), together with the alphabet
predicates of the `checks` package and the `energies.ToEnergyParams`
conversion.

Modelling conventions:
* Go `float64` values are modelled exactly: finite values as unnormalised
  integer fractions (`Qv`), and the full value space (with the IEEE special
  values `±Inf`, `NaN` used as sentinels by the fold package) as `GFloat`.
  Finite arithmetic is exact rational arithmetic; IEEE rounding of finite
  operations is not modelled (no claim under verification depends on it).
* Go maps are modelled as association lists; a Go map never holds two
  entries with the same key, which appears as `Nodup` hypotheses on the
  key lists where a statement needs it.
* Go panics (out-of-range slice indexing) are modelled by `Option`:
  a function that can panic returns `none` on the panicking input.
* Go's multiple return `(value, error)` is modelled as `value × Option String`.
-/

/-- Exact model of a finite Go `float64` value as an unnormalised fraction
`num / den`.  All arithmetic is exact; values are compared by cross
multiplication (value equality), mirroring IEEE `==` on finite values. -/
structure Qv where
  num : Int
  den : Int
deriving DecidableEq, Repr

/-- Addition of finite float values (exact). -/
def Qv.add : Qv → Qv → Qv
  | ⟨a, b⟩, ⟨c, d⟩ => ⟨a * d + c * b, b * d⟩

/-- Subtraction of finite float values (exact). -/
def Qv.sub : Qv → Qv → Qv
  | ⟨a, b⟩, ⟨c, d⟩ => ⟨a * d - c * b, b * d⟩

/-- Multiplication of finite float values (exact). -/
def Qv.mul : Qv → Qv → Qv
  | ⟨a, b⟩, ⟨c, d⟩ => ⟨a * c, b * d⟩

/-- IEEE `==` between two finite float values: value equality of the
fractions, by cross multiplication. -/
def Qv.goEq (x y : Qv) : Bool := x.num * y.den == y.num * x.den

/-- Go's `int(x)` conversion of a finite float: truncation toward zero. -/
def Qv.trunc (x : Qv) : Int := Int.tdiv x.num x.den

/-- Model of a Go `float64` including the IEEE special values that the
fold package uses as sentinels (`math.Inf(1)`, `math.Inf(-1)`) and `NaN`. -/
inductive GFloat where
  | nan
  | negInf
  | posInf
  | fin (q : Qv)
deriving DecidableEq, Repr

/-- IEEE `==` on float values: `NaN` is equal to nothing (itself included),
infinities are equal to themselves, finite values compare by value. -/
def GFloat.goEq : GFloat → GFloat → Bool
  | .negInf, .negInf => true
  | .posInf, .posInf => true
  | .fin x, .fin y => Qv.goEq x y
  | _, _ => false

/-- IEEE `+` on float values: `NaN` is absorbing, opposite infinities give
`NaN`, an infinity absorbs finite values, finite values add exactly. -/
def GFloat.add : GFloat → GFloat → GFloat
  | .nan, _ => .nan
  | _, .nan => .nan
  | .posInf, .negInf => .nan
  | .negInf, .posInf => .nan
  | .posInf, _ => .posInf
  | _, .posInf => .posInf
  | .negInf, _ => .negInf
  | _, .negInf => .negInf
  | .fin x, .fin y => .fin (Qv.add x y)

/-- `subsequence` (fold package): an interval of bases in the sequence.
The Go field `end` is a Lean keyword, hence the guillemets. -/
structure subsequence where
  start : Int
  «end» : Int
deriving DecidableEq, Repr

/-- `nucleicAcidStructure` (fold package): a single structure with a free
energy, description, and inward children. -/
structure nucleicAcidStructure where
  description : String
  inner : List subsequence
  energy : GFloat
deriving DecidableEq, Repr

/-- `nucleicAcidStructure.Equal`: length check on the inner interval lists,
element-wise comparison, then IEEE `==` on the energies. -/
def nucleicAcidStructure.Equal (s other : nucleicAcidStructure) : Bool :=
  if s.inner.length = other.inner.length then
    (s.inner.zip other.inner).all (fun p => decide (p.1 = p.2)) &&
      GFloat.goEq s.energy other.energy
  else false

/-- `nucleicAcidStructure.Valid`: the energy is IEEE-`!=` to both `+Inf`
and `-Inf`. -/
def nucleicAcidStructure.Valid (s : nucleicAcidStructure) : Bool :=
  !(GFloat.goEq s.energy GFloat.posInf) && !(GFloat.goEq s.energy GFloat.negInf)

/-- `defaultStructure` (fold package): the cache-fill sentinel, energy `-Inf`. -/
def defaultStructure : nucleicAcidStructure :=
  { description := "", inner := [], energy := GFloat.negInf }

/-- `invalidStructure` (fold package): the invalid sentinel, energy `+Inf`. -/
def invalidStructure : nucleicAcidStructure :=
  { description := "", inner := [], energy := GFloat.posInf }

/-- `checks.IsDNA`: every rune is one of `A C T G`. -/
def IsDNA (seq : String) : Bool :=
  seq.data.all fun base => base == 'A' || base == 'C' || base == 'T' || base == 'G'

/-- `checks.IsRNA`: every rune is one of `A C U G`. -/
def IsRNA (seq : String) : Bool :=
  seq.data.all fun base => base == 'A' || base == 'C' || base == 'U' || base == 'G'

/-- `strings.ToUpper`, restricted to the rune-wise mapping (ASCII faithful;
the fold alphabet is ASCII). -/
def goToUpper (s : String) : String := String.mk (s.data.map Char.toUpper)

/-- `energy` (fold package): an enthalpy/entropy pair. -/
structure energy where
  enthalpyH : Qv
  entropyS : Qv
deriving DecidableEq, Repr

/-- `loopEnergy`: `map[int]energy` keyed by loop length, as an association
list. -/
abbrev loopEnergy : Type := List (Int × energy)

/-- `matchingBasepairEnergy`: `map[string]energy`, as an association list. -/
abbrev matchingBasepairEnergy : Type := List (String × energy)

/-- `multibranchEnergies` (fold package): the linear multibranch
coefficients. -/
structure multibranchEnergies where
  helicesCount : Qv
  unpairedCount : Qv
  coaxialStackCount : Qv
  terminalMismatchCount : Qv
deriving DecidableEq, Repr

/-- `energies` (fold package): the energy maps bundle.  The Go field
`complement` has a function type, whose zero value is `nil`; it is modelled
as an `Option`. -/
structure energies where
  bulgeLoops : loopEnergy
  complement : Option (Char → Char)
  danglingEnds : matchingBasepairEnergy
  hairpinLoops : loopEnergy
  multibranch : multibranchEnergies
  internalLoops : loopEnergy
  internalMismatches : matchingBasepairEnergy
  nearestNeighbors : matchingBasepairEnergy
  terminalMismatches : matchingBasepairEnergy
  triTetraLoops : matchingBasepairEnergy

/-- The zero value of `energies` (nil maps, nil complement function). -/
def energiesZero : energies :=
  { bulgeLoops := [], complement := none, danglingEnds := [], hairpinLoops := [],
    multibranch := ⟨⟨0, 1⟩, ⟨0, 1⟩, ⟨0, 1⟩, ⟨0, 1⟩⟩, internalLoops := [],
    internalMismatches := [], nearestNeighbors := [], terminalMismatches := [],
    triTetraLoops := [] }

/-- Modelled from the spec: the complement rule of the DNA energy model
(`A↔T`, `G↔C`); the table contents of `dnaEnergies` are not among the
provided source files. -/
def dnaComplement : Char → Char := fun c =>
  if c = 'A' then 'T' else if c = 'T' then 'A'
  else if c = 'G' then 'C' else if c = 'C' then 'G' else c

/-- Modelled from the spec: the complement rule of the RNA energy model
(`A↔U`, `G↔C`). -/
def rnaComplement : Char → Char := fun c =>
  if c = 'A' then 'U' else if c = 'U' then 'A'
  else if c = 'G' then 'C' else if c = 'C' then 'G' else c

/-- Modelled from the spec: the canonical DNA energy model instance
(`dnaEnergies`).  Its table contents are not among the provided source
files; only its identity and its complement rule are relied upon. -/
def dnaEnergies : energies :=
  { energiesZero with complement := some dnaComplement }

/-- Modelled from the spec: the canonical RNA energy model instance
(`rnaEnergies`). -/
def rnaEnergies : energies :=
  { energiesZero with complement := some rnaComplement }

/-- `context` (fold package): the per-sequence folding state. -/
structure context where
  energies : energies
  seq : String
  pairedMinimumFreeEnergyV : List (List nucleicAcidStructure)
  unpairedMinimumFreeEnergyW : List (List nucleicAcidStructure)
  temp : Qv

/-- The zero value of `context` (`context{}` in Go). -/
def contextZero : context :=
  { energies := energiesZero, seq := "", pairedMinimumFreeEnergyV := [],
    unpairedMinimumFreeEnergyW := [], temp := ⟨0, 1⟩ }

/-- The pre-fill phase of `newFoldingContext` (lines up to the cache fill):
uppercase the sequence, select the energy map by alphabet (DNA first, then
RNA, otherwise an error with the zero context), allocate the two
`length × length` caches filled with `defaultStructure`, and convert the
temperature to Kelvin. -/
def foldContextPre (seq0 : String) (temp : Qv) : context × Option String :=
  if IsDNA (goToUpper seq0) then
    ({ energies := dnaEnergies, seq := goToUpper seq0,
       pairedMinimumFreeEnergyV :=
         List.replicate (goToUpper seq0).length
           (List.replicate (goToUpper seq0).length defaultStructure),
       unpairedMinimumFreeEnergyW :=
         List.replicate (goToUpper seq0).length
           (List.replicate (goToUpper seq0).length defaultStructure),
       temp := Qv.add temp ⟨27315, 100⟩ }, none)
  else if IsRNA (goToUpper seq0) then
    ({ energies := rnaEnergies, seq := goToUpper seq0,
       pairedMinimumFreeEnergyV :=
         List.replicate (goToUpper seq0).length
           (List.replicate (goToUpper seq0).length defaultStructure),
       unpairedMinimumFreeEnergyW :=
         List.replicate (goToUpper seq0).length
           (List.replicate (goToUpper seq0).length defaultStructure),
       temp := Qv.add temp ⟨27315, 100⟩ }, none)
  else
    (contextZero, some ("the sequence " ++ goToUpper seq0 ++ " is not RNA or DNA"))

/-- `newFoldingContext` (fold package).  The cache-filling recurrence
`unpairedMinimumFreeEnergyW` is not among the provided source files, so it
is taken as an explicit parameter `fill`: it receives the span `(0, n-1)`
and the freshly allocated context, and returns the filled context together
with an optional error (in Go the caches are filled in place and the
recurrence returns `(nucleicAcidStructure, error)`). -/
def newFoldingContext (fill : Int → Int → context → context × Option String)
    (seq : String) (temp : Qv) : context × Option String :=
  match foldContextPre seq temp with
  | (_, some err) => (contextZero, some err)
  | (ret, none) =>
    match fill 0 ((ret.seq.length : Int) - 1) ret with
    | (_, some err) =>
      (contextZero, some ("error filling the caches for the FoldingContext: " ++ err))
    | (filled, none) => (filled, none)

/-- `Result` (fold package): the structures resulting from folding. -/
structure Result where
  structs : List nucleicAcidStructure
deriving DecidableEq, Repr

/-- The running-maximum step of `DotBracket`'s first loop:
`if innerSubsequence.end > lastStructEnd { lastStructEnd = innerSubsequence.end }`. -/
def maxEndStep (a : Int) (iv : subsequence) : Int :=
  if iv.«end» > a then iv.«end» else a

/-- The furthest-right inner-interval end observed across all records,
starting from `0` (the first loop of `DotBracket`). -/
def lastEnd (structs : List nucleicAcidStructure) : Int :=
  structs.foldl (fun acc st => st.inner.foldl maxEndStep acc) 0

/-- Go slice write `buf[i] = c` on a `[]byte`: panics (`none`) when the
index is out of range. -/
def setByte (l : List Char) (i : Int) (c : Char) : Option (List Char) :=
  if 0 ≤ i ∧ i < (l.length : Int) then some (l.set i.toNat c) else none

/-- The second loop of `DotBracket`: for every record with exactly one
inner interval, write `'('` at its start index and `')'` at its end index. -/
def writePairs (structs : List nucleicAcidStructure) (buf : List Char) :
    Option (List Char) :=
  structs.foldlM (fun b st =>
    match st.inner with
    | [iv] => (setByte b iv.start '(').bind (fun b1 => setByte b1 iv.«end» ')')
    | _ => some b) buf

/-- `Result.DotBracket` (fold package): empty result gives `""`; otherwise
allocate a `'.'`-filled buffer of size `lastEnd + 1` and overwrite the two
positions of every single-interval record. `none` models the Go panic on an
out-of-range index. -/
def Result.DotBracket (r : Result) : Option String :=
  if r.structs = [] then some ""
  else
    (writePairs r.structs (List.replicate (lastEnd r.structs + 1).toNat '.')).map
      String.mk

/-- `Result.MinimumFreeEnergy` (fold package): `+Inf` for an empty result,
otherwise the running float sum of the record energies starting from `0.0`. -/
def Result.MinimumFreeEnergy (r : Result) : GFloat :=
  if r.structs = [] then GFloat.posInf
  else r.structs.foldl (fun acc st => acc.add st.energy) (GFloat.fin ⟨0, 1⟩)

/-- `maxLenPreCalulated` (fold package): the length limit of the
pre-calculated loop energies (the source's spelling is kept). -/
def maxLenPreCalulated : Nat := 30

/-- `minLenForStruct` (fold package). -/
def minLenForStruct : Nat := 4

/-- `isolatedBasePairPenalty` (fold package). -/
def isolatedBasePairPenalty : Int := 1600

/-- `loopsAsymmetryPenalty` (fold package): 0.3. -/
def loopsAsymmetryPenalty : Qv := ⟨3, 10⟩

/-- `closingATPenalty` (fold package): 0.5. -/
def closingATPenalty : Qv := ⟨5, 10⟩

/-- Modelled from the spec: `deltaG` is not among the provided source
files; the spec gives the conversion of an enthalpy/entropy pair to a
free-energy delta at absolute temperature `temp` as `ΔG = ΔH − T·ΔS`. -/
def deltaG (enthalpyH entropyS temp : Qv) : Qv :=
  Qv.sub enthalpyH (Qv.mul temp entropyS)

/-- The `dG` closure of `ToEnergyParams`: `int(scale*deltaG(...))`. -/
def dGInt (scale temp : Qv) (nrg : energy) : Int :=
  Qv.trunc (Qv.mul scale (deltaG nrg.enthalpyH nrg.entropyS temp))

/-- Go slice write `arr[i] = v` on a `[]int` indexed by an `int` key:
panics (`none`) when the index is out of range. -/
def setIdx (l : List Int) (i : Int) (v : Int) : Option (List Int) :=
  if 0 ≤ i ∧ i < (l.length : Int) then some (l.set i.toNat v) else none

/-- One `for i, nrg := range m { arr[i] = dG(nrg) }` loop of
`ToEnergyParams`, over a loop-energy map. -/
def fillLoopTable (scale temp : Qv) (m : loopEnergy) (arr : List Int) :
    Option (List Int) :=
  m.foldlM (fun a kv => setIdx a kv.1 (dGInt scale temp kv.2)) arr

/-- The fields of `energy_params.EnergyParams` that `ToEnergyParams`
assigns (the package itself is outside the provided sources).  Defaults
model the Go zero value `EnergyParams{}`. -/
structure EnergyParams where
  HairpinLoop : List Int := []
  Bulge : List Int := []
  InteriorLoop : List Int := []
  LogExtrapolationConstant : Qv := ⟨0, 1⟩
  MultiLoopUnpairedNucleotideBonus : Int := 0
  MultiLoopClosingPenalty : Int := 0
  TerminalAUPenalty : Int := 0
  TriLoop : List (String × Int) := []
  TetraLoop : List (String × Int) := []
  HexaLoop : List (String × Int) := []
deriving DecidableEq, Repr

/-- The `AssignLoop` closure of `ToEnergyParams`: record `loop ↦ bonus`
in the map when the loop string has length `k`. -/
def AssignLoop (m : List (String × Int)) (k : Nat) (loop : String) (bonus : Int) :
    List (String × Int) :=
  if loop.length = k then m ++ [(loop, bonus)] else m

/-- `energies.ToEnergyParams` (fold package).  `jacobsonStockmayer` is not
among the provided source files and its logarithmic extrapolation leaves
the rationals, so it is taken as an explicit parameter `js`; the call
`jacobsonStockmayer(1, 1, 0, 1)` becomes `js ⟨1,1⟩ ⟨1,1⟩ ⟨0,1⟩ ⟨1,1⟩`.
`none` models the Go panic on an out-of-range loop-length key. -/
def energies.ToEnergyParams (e : energies)
    (js : Qv → Qv → Qv → Qv → Qv) (temp scale : Qv) : Option EnergyParams :=
  (fillLoopTable scale temp e.hairpinLoops (List.replicate maxLenPreCalulated 0)).bind
    fun hairpin =>
  (fillLoopTable scale temp e.bulgeLoops (List.replicate maxLenPreCalulated 0)).bind
    fun bulge =>
  (fillLoopTable scale temp e.internalLoops (List.replicate maxLenPreCalulated 0)).bind
    fun interior =>
  let tte := e.triTetraLoops.foldl
    (fun (acc : List (String × Int) × List (String × Int) × List (String × Int)) kv =>
      let bonus := dGInt scale temp kv.2
      (AssignLoop acc.1 5 kv.1 bonus,
       AssignLoop acc.2.1 6 kv.1 bonus,
       AssignLoop acc.2.2 8 kv.1 bonus))
    ([], [], [])
  some { HairpinLoop := hairpin, Bulge := bulge, InteriorLoop := interior,
         LogExtrapolationConstant := js ⟨1, 1⟩ ⟨1, 1⟩ ⟨0, 1⟩ ⟨1, 1⟩,
         MultiLoopUnpairedNucleotideBonus := 0, MultiLoopClosingPenalty := 0,
         TerminalAUPenalty := 0,
         TriLoop := tte.1, TetraLoop := tte.2.1, HexaLoop := tte.2.2 }

/-- The inner intervals of the records with exactly one inner interval
(the records whose two endpoints `DotBracket` overwrites). -/
def singlePairs (structs : List nucleicAcidStructure) : List subsequence :=
  structs.filterMap fun st =>
    match st.inner with
    | [iv] => some iv
    | _ => none

/-- Position `p` is the start index of some single-interval record. -/
def isOpenPos (structs : List nucleicAcidStructure) (p : Nat) : Bool :=
  (singlePairs structs).any fun iv => iv.start == (p : Int)

/-- Position `p` is the end index of some single-interval record. -/
def isClosePos (structs : List nucleicAcidStructure) (p : Nat) : Bool :=
  (singlePairs structs).any fun iv => iv.«end» == (p : Int)

/-- Character of `s` at a Go `int` index, `none` when out of range. -/
def charAt (s : String) (i : Int) : Option Char :=
  if 0 ≤ i then s.data[i.toNat]? else none

/-- The dot-bracket shape claimed by the spec for a rendered string `s`:
the length is the furthest-right inner-interval end plus one; every
single-interval record has `'('` at its start index and `')'` at its end
index; every other position holds `'.'`. -/
def dotBracketSpec (r : Result) (s : String) : Bool :=
  (s.length == (lastEnd r.structs + 1).toNat) &&
  ((singlePairs r.structs).all fun iv =>
    (charAt s iv.start == some '(') && (charAt s iv.«end» == some ')')) &&
  ((List.range s.length).all fun p =>
    isOpenPos r.structs p || isClosePos r.structs p || (s.data[p]? == some '.'))

/-- `DotBracket` returned a string of the claimed dot-bracket shape. -/
def dotBracketMeets (r : Result) : Bool :=
  match r.DotBracket with
  | some s => dotBracketSpec r s
  | none => false

/-- Balancedness of a dot-bracket string: as many `'('` as `')'`, and no
prefix closes more than it has opened. -/
def balancedB (s : String) : Bool :=
  (s.data.count '(' == s.data.count ')') &&
  ((List.range (s.data.length + 1)).all fun k =>
    decide ((s.data.take k).count ')' ≤ (s.data.take k).count '('))

/-- `DotBracket` returned a balanced string. -/
def dotBracketBalanced (r : Result) : Bool :=
  match r.DotBracket with
  | some s => balancedB s
  | none => false

/-- The write loop of `DotBracket` restricted to the extracted
single-interval records (`writePairs` visits exactly these). -/
def writeIvs (ivs : List subsequence) (buf : List Char) : Option (List Char) :=
  ivs.foldlM (fun b iv =>
    (setByte b iv.start '(').bind (fun b1 => setByte b1 iv.«end» ')')) buf

/-- The character the write loop leaves at position `p` (given in-range,
collision-free intervals): `'('` at a start, `')'` at an end, `'.'`
elsewhere. -/
def charOfPos (structs : List nucleicAcidStructure) (p : Nat) : Char :=
  if isOpenPos structs p then '('
  else if isClosePos structs p then ')'
  else '.'

/-- A fill that leaves the context untouched and reports no error (used to
instantiate the abstract recurrence parameter on concrete inputs). -/
def fillId : Int → Int → context → context × Option String := fun _ _ c => (c, none)

/-- A concrete stand-in for the absent `jacobsonStockmayer` (used to
instantiate the abstract parameter on concrete inputs). -/
def js0 : Qv → Qv → Qv → Qv → Qv := fun _ _ _ _ => ⟨0, 1⟩

/-- A concrete energy bundle with one hairpin loop-length entry. -/
def eOneHairpin : energies :=
  { energiesZero with hairpinLoops := [(0, ⟨⟨1, 1⟩, ⟨0, 1⟩⟩)] }

/-- The energy-params value `eOneHairpin` converts to at temperature 0 and
scale 1. -/
def epOneHairpin : EnergyParams :=
  { HairpinLoop := 1 :: List.replicate 29 0,
    Bulge := List.replicate 30 0,
    InteriorLoop := List.replicate 30 0,
    LogExtrapolationConstant := ⟨0, 1⟩,
    TriLoop := [], TetraLoop := [], HexaLoop := [] }

/-- A concrete energy bundle with an out-of-range bulge loop-length key. -/
def eBadKey : energies :=
  { energiesZero with bulgeLoops := [(30, ⟨⟨1, 1⟩, ⟨0, 1⟩⟩)] }

/-- Element-wise comparison of two equal-length lists (the loop of
`nucleicAcidStructure.Equal`) holds exactly for equal lists. -/
theorem zip_all_eq_iff : ∀ xs ys : List subsequence,
    (xs.length = ys.length ∧
      (xs.zip ys).all (fun p => decide (p.1 = p.2)) = true) ↔ xs = ys := by
  intro xs
  induction xs with
  | nil => intro ys; cases ys <;> simp
  | cons x xs ih =>
    intro ys
    cases ys with
    | nil => simp
    | cons y ys =>
      simp only [List.zip_cons_cons, List.all_cons, List.length_cons,
        Nat.add_right_cancel_iff, Bool.and_eq_true, decide_eq_true_eq,
        List.cons.injEq]
      constructor
      · rintro ⟨hlen, hxy, hall⟩
        exact ⟨hxy, (ih ys).mp ⟨hlen, hall⟩⟩
      · rintro ⟨hxy, hrest⟩
        rcases (ih ys).mpr hrest with ⟨hlen, hall⟩
        exact ⟨hlen, hxy, hall⟩

/-- C10: For the empty Result, `DotBracket` returns the empty string
(length 0), not a `'.'`-filled string sized to the sequence. -/
theorem dotBracket_empty_result :
    Result.DotBracket ⟨[]⟩ = some "" ∧ ("" : String).length = 0 :=
  ⟨rfl, rfl⟩

/-- C3: `MinimumFreeEnergy` returns `+Inf` for the empty Result, and for a
non-empty Result the (float) sum of the record energies; it is a total
function (no error channel). -/
theorem minimumFreeEnergy_sum :
    Result.MinimumFreeEnergy ⟨[]⟩ = GFloat.posInf ∧
    ∀ r : Result, r.structs ≠ [] →
      r.MinimumFreeEnergy =
        (r.structs.map (fun st => st.energy)).foldl GFloat.add (GFloat.fin ⟨0, 1⟩) := by
  refine ⟨rfl, fun r h => ?_⟩
  unfold Result.MinimumFreeEnergy
  rw [if_neg h, List.foldl_map]

/-- Witness for C3 at a concrete non-empty Result. -/
theorem minimumFreeEnergy_sum_witness :
    Result.MinimumFreeEnergy ⟨[invalidStructure]⟩ =
      ([invalidStructure].map (fun st => st.energy)).foldl GFloat.add (GFloat.fin ⟨0, 1⟩) :=
  minimumFreeEnergy_sum.2 ⟨[invalidStructure]⟩ (by decide)

/-- C6: `Valid` holds exactly when the energy is neither `+Inf` nor `-Inf`
(so both sentinels are not Valid), and `Equal` holds exactly when the inner
interval lists agree element-wise and the energies compare equal. -/
theorem valid_equal_spec :
    (∀ s : nucleicAcidStructure,
      s.Valid = true ↔ (s.energy ≠ GFloat.posInf ∧ s.energy ≠ GFloat.negInf)) ∧
    defaultStructure.energy = GFloat.negInf ∧
    defaultStructure.Valid = false ∧
    invalidStructure.energy = GFloat.posInf ∧
    invalidStructure.Valid = false ∧
    (∀ a b : nucleicAcidStructure,
      a.Equal b = true ↔ (a.inner = b.inner ∧ GFloat.goEq a.energy b.energy = true)) := by
  refine ⟨fun s => ?_, rfl, rfl, rfl, rfl, fun a b => ?_⟩
  · obtain ⟨d, inn, e⟩ := s
    cases e <;> simp [nucleicAcidStructure.Valid, GFloat.goEq]
  · unfold nucleicAcidStructure.Equal
    by_cases h : a.inner.length = b.inner.length
    · rw [if_pos h]
      simp only [Bool.and_eq_true]
      constructor
      · rintro ⟨hall, he⟩
        exact ⟨(zip_all_eq_iff a.inner b.inner).mp ⟨h, hall⟩, he⟩
      · rintro ⟨hinner, he⟩
        exact ⟨((zip_all_eq_iff a.inner b.inner).mpr hinner).2, he⟩
    · rw [if_neg h]
      constructor
      · intro hf; exact absurd hf (by simp)
      · rintro ⟨hinner, _⟩
        exact absurd (congrArg List.length hinner) h

/-- Witness for C6 at concrete structures. -/
theorem valid_equal_spec_witness :
    (invalidStructure.Valid = true ↔
      (invalidStructure.energy ≠ GFloat.posInf ∧ invalidStructure.energy ≠ GFloat.negInf)) ∧
    (defaultStructure.Equal invalidStructure = true ↔
      (defaultStructure.inner = invalidStructure.inner ∧
        GFloat.goEq defaultStructure.energy invalidStructure.energy = true)) :=
  ⟨valid_equal_spec.1 invalidStructure,
    valid_equal_spec.2.2.2.2.2 defaultStructure invalidStructure⟩

/-- C1: `newFoldingContext` uppercases the sequence, then selects the DNA
table when every symbol is in `{A,C,T,G}`, otherwise the RNA table when
every symbol is in `{A,C,U,G}`, and otherwise fails with an error,
returning the zero-value context. -/
theorem newFoldingContext_alphabet_selection
    (fill : Int → Int → context → context × Option String) (s : String) (t : Qv) :
    (IsDNA (goToUpper s) = true →
      (foldContextPre s t).2 = none ∧
      (foldContextPre s t).1.energies = dnaEnergies) ∧
    (IsDNA (goToUpper s) = false → IsRNA (goToUpper s) = true →
      (foldContextPre s t).2 = none ∧
      (foldContextPre s t).1.energies = rnaEnergies) ∧
    (IsDNA (goToUpper s) = false → IsRNA (goToUpper s) = false →
      newFoldingContext fill s t =
        (contextZero, some ("the sequence " ++ goToUpper s ++ " is not RNA or DNA"))) := by
  refine ⟨fun hd => ?_, fun hd hr => ?_, fun hd hr => ?_⟩
  · simp [foldContextPre, hd]
  · simp [foldContextPre, hd, hr]
  · simp [newFoldingContext, foldContextPre, hd, hr]

/-- Witness for C1: all three alphabet branches at concrete sequences. -/
theorem newFoldingContext_alphabet_selection_witness :
    ((foldContextPre "actg" ⟨37, 1⟩).2 = none ∧
      (foldContextPre "actg" ⟨37, 1⟩).1.energies = dnaEnergies) ∧
    ((foldContextPre "acug" ⟨37, 1⟩).2 = none ∧
      (foldContextPre "acug" ⟨37, 1⟩).1.energies = rnaEnergies) ∧
    newFoldingContext fillId "abx" ⟨37, 1⟩ =
      (contextZero, some ("the sequence " ++ goToUpper "abx" ++ " is not RNA or DNA")) :=
  ⟨(newFoldingContext_alphabet_selection fillId "actg" ⟨37, 1⟩).1 (by decide),
   (newFoldingContext_alphabet_selection fillId "acug" ⟨37, 1⟩).2.1 (by decide) (by decide),
   (newFoldingContext_alphabet_selection fillId "abx" ⟨37, 1⟩).2.2 (by decide) (by decide)⟩

/-- Uppercasing fixes a sequence whose symbols are already `A`, `C` or `G`. -/
theorem goToUpper_fixed_of_ACG (s : String)
    (h : ∀ c ∈ s.data, c = 'A' ∨ c = 'C' ∨ c = 'G') : goToUpper s = s := by
  unfold goToUpper
  have hmap : s.data.map Char.toUpper = s.data.map id := by
    refine List.map_congr_left fun c hc => ?_
    rcases h c hc with h1 | h1 | h1 <;> subst h1 <;> rfl
  rw [hmap, List.map_id]

/-- C8: A sequence over `{A,C,G}` is accepted by both alphabet predicates,
and context construction selects the DNA model (the DNA check is first). -/
theorem dna_selected_on_acg (s : String) (t : Qv)
    (h : ∀ c ∈ s.data, c = 'A' ∨ c = 'C' ∨ c = 'G') :
    IsDNA s = true ∧ IsRNA s = true ∧
    (foldContextPre s t).2 = none ∧
    (foldContextPre s t).1.energies = dnaEnergies := by
  have hdna : IsDNA s = true := by
    unfold IsDNA
    rw [List.all_eq_true]
    intro c hc
    rcases h c hc with h1 | h1 | h1 <;> subst h1 <;> rfl
  have hrna : IsRNA s = true := by
    unfold IsRNA
    rw [List.all_eq_true]
    intro c hc
    rcases h c hc with h1 | h1 | h1 <;> subst h1 <;> rfl
  have hup : goToUpper s = s := goToUpper_fixed_of_ACG s h
  refine ⟨hdna, hrna, ?_, ?_⟩ <;> simp [foldContextPre, hup, hdna]

/-- Witness for C8 at a concrete `{A,C,G}` sequence. -/
theorem dna_selected_on_acg_witness :
    IsDNA "GCA" = true ∧ IsRNA "GCA" = true ∧
    (foldContextPre "GCA" ⟨20, 1⟩).2 = none ∧
    (foldContextPre "GCA" ⟨20, 1⟩).1.energies = dnaEnergies :=
  dna_selected_on_acg "GCA" ⟨20, 1⟩ (by decide)

/-- The fields of a successfully constructed pre-fill context. -/
theorem foldContextPre_fields (s : String) (t : Qv) (ret : context)
    (hfc : foldContextPre s t = (ret, none)) :
    ret.seq = goToUpper s ∧
    ret.temp = Qv.add t ⟨27315, 100⟩ ∧
    ret.pairedMinimumFreeEnergyV =
      List.replicate (goToUpper s).length
        (List.replicate (goToUpper s).length defaultStructure) ∧
    ret.unpairedMinimumFreeEnergyW =
      List.replicate (goToUpper s).length
        (List.replicate (goToUpper s).length defaultStructure) := by
  unfold foldContextPre at hfc
  by_cases hd : IsDNA (goToUpper s) = true
  · rw [if_pos hd, Prod.mk.injEq] at hfc
    obtain ⟨h1, -⟩ := hfc
    subst h1
    exact ⟨rfl, rfl, rfl, rfl⟩
  · by_cases hr : IsRNA (goToUpper s) = true
    · rw [if_neg hd, if_pos hr, Prod.mk.injEq] at hfc
      obtain ⟨h1, -⟩ := hfc
      subst h1
      exact ⟨rfl, rfl, rfl, rfl⟩
    · rw [if_neg hd, if_neg hr] at hfc
      simp at hfc

/-- Unfolding of `newFoldingContext` when the pre-fill phase succeeds. -/
theorem newFoldingContext_ok
    (fill : Int → Int → context → context × Option String) (s : String) (t : Qv)
    (ret : context) (hfc : foldContextPre s t = (ret, none)) :
    newFoldingContext fill s t =
      match fill 0 ((ret.seq.length : Int) - 1) ret with
      | (_, some err) =>
        (contextZero, some ("error filling the caches for the FoldingContext: " ++ err))
      | (filled, none) => (filled, none) := by
  unfold newFoldingContext
  rw [hfc]

/-- C5: If `newFoldingContext` succeeds, the pre-fill context holds the
uppercased sequence, the temperature shifted to Kelvin by `+273.15`, and
two `n × n` caches every cell of which is the best-case sentinel
(`defaultStructure`, energy `-Inf`), and the result is obtained by running
the fill over the span `(0, n-1)` on exactly that context. -/
theorem newFoldingContext_success_prefill
    (fill : Int → Int → context → context × Option String) (s : String) (t : Qv)
    (h : (newFoldingContext fill s t).2 = none) :
    ∃ pre : context,
      foldContextPre s t = (pre, none) ∧
      pre.seq = goToUpper s ∧
      pre.temp = Qv.add t ⟨27315, 100⟩ ∧
      pre.pairedMinimumFreeEnergyV =
        List.replicate (goToUpper s).length
          (List.replicate (goToUpper s).length defaultStructure) ∧
      pre.unpairedMinimumFreeEnergyW =
        List.replicate (goToUpper s).length
          (List.replicate (goToUpper s).length defaultStructure) ∧
      defaultStructure.energy = GFloat.negInf ∧
      newFoldingContext fill s t =
        ((fill 0 (((goToUpper s).length : Int) - 1) pre).1, none) := by
  rcases hp : foldContextPre s t with ⟨ret, err⟩
  cases err with
  | some e =>
    have hz : newFoldingContext fill s t = (contextZero, some e) := by
      unfold newFoldingContext
      rw [hp]
    rw [hz] at h
    simp at h
  | none =>
    obtain ⟨hseq, htemp, hv, hw⟩ := foldContextPre_fields s t ret hp
    rw [newFoldingContext_ok fill s t ret hp] at h ⊢
    rcases hfill : fill 0 ((ret.seq.length : Int) - 1) ret with ⟨c, ferr⟩
    cases ferr with
    | some e =>
      rw [hfill] at h
      exact Option.noConfusion h
    | none =>
      refine ⟨ret, rfl, hseq, htemp, hv, hw, rfl, ?_⟩
      have hlen : ((goToUpper s).length : Int) = (ret.seq.length : Int) := by
        rw [hseq]
      rw [hlen, hfill]

/-- Witness for C5 at a concrete successful construction. -/
theorem newFoldingContext_success_prefill_witness :
    ∃ pre : context,
      foldContextPre "GACT" ⟨20, 1⟩ = (pre, none) ∧
      pre.seq = goToUpper "GACT" ∧
      pre.temp = Qv.add ⟨20, 1⟩ ⟨27315, 100⟩ ∧
      pre.pairedMinimumFreeEnergyV =
        List.replicate (goToUpper "GACT").length
          (List.replicate (goToUpper "GACT").length defaultStructure) ∧
      pre.unpairedMinimumFreeEnergyW =
        List.replicate (goToUpper "GACT").length
          (List.replicate (goToUpper "GACT").length defaultStructure) ∧
      defaultStructure.energy = GFloat.negInf ∧
      newFoldingContext fillId "GACT" ⟨20, 1⟩ =
        ((fillId 0 (((goToUpper "GACT").length : Int) - 1) pre).1, none) :=
  newFoldingContext_success_prefill fillId "GACT" ⟨20, 1⟩ rfl

/-- A successful loop-table fill preserves the array length. -/
theorem fillLoopTable_length (scale temp : Qv) :
    ∀ (m : List (Int × energy)) (arr out : List Int),
      fillLoopTable scale temp m arr = some out → out.length = arr.length := by
  intro m
  induction m with
  | nil =>
    intro arr out h
    rw [Option.some.inj h]
  | cons kv m ih =>
    intro arr out h
    rcases hset : setIdx arr kv.1 (dGInt scale temp kv.2) with _ | a1
    · rw [show fillLoopTable scale temp (kv :: m) arr =
          (setIdx arr kv.1 (dGInt scale temp kv.2)).bind (fillLoopTable scale temp m)
          from rfl, hset, Option.none_bind] at h
      exact Option.noConfusion h
    · rw [show fillLoopTable scale temp (kv :: m) arr =
          (setIdx arr kv.1 (dGInt scale temp kv.2)).bind (fillLoopTable scale temp m)
          from rfl, hset, Option.some_bind] at h
      have hlen : a1.length = arr.length := by
        unfold setIdx at hset
        split at hset
        case isTrue hc => rw [← Option.some.inj hset, List.length_set]
        case isFalse hc => exact Option.noConfusion hset
      rw [ih a1 out h, hlen]

/-- A successful loop-table fill implies every key was in range. -/
theorem fillLoopTable_mem_bounds (scale temp : Qv) :
    ∀ (m : List (Int × energy)) (arr out : List Int),
      fillLoopTable scale temp m arr = some out →
      ∀ kv ∈ m, 0 ≤ kv.1 ∧ kv.1 < (arr.length : Int) := by
  intro m
  induction m with
  | nil => intro arr out h kv hm; exact absurd hm (List.not_mem_nil kv)
  | cons kv0 m ih =>
    intro arr out h kv hm
    rcases hset : setIdx arr kv0.1 (dGInt scale temp kv0.2) with _ | a1
    · rw [show fillLoopTable scale temp (kv0 :: m) arr =
          (setIdx arr kv0.1 (dGInt scale temp kv0.2)).bind (fillLoopTable scale temp m)
          from rfl, hset, Option.none_bind] at h
      exact Option.noConfusion h
    · rw [show fillLoopTable scale temp (kv0 :: m) arr =
          (setIdx arr kv0.1 (dGInt scale temp kv0.2)).bind (fillLoopTable scale temp m)
          from rfl, hset, Option.some_bind] at h
      have hcond : 0 ≤ kv0.1 ∧ kv0.1 < (arr.length : Int) := by
        unfold setIdx at hset
        split at hset
        case isTrue hc => exact hc
        case isFalse hc => exact Option.noConfusion hset
      have hlen : a1.length = arr.length := by
        rw [setIdx, if_pos hcond] at hset
        rw [← Option.some.inj hset, List.length_set]
      rcases List.mem_cons.mp hm with h1 | h1
      · rw [h1]; exact hcond
      · have hb := ih a1 out h kv h1
        rw [hlen] at hb
        exact hb

/-- A successful loop-table fill leaves positions hit by no key unchanged. -/
theorem fillLoopTable_untouched (scale temp : Qv) :
    ∀ (m : List (Int × energy)) (arr out : List Int),
      fillLoopTable scale temp m arr = some out →
      ∀ p : Nat, (∀ kv ∈ m, kv.1 ≠ (p : Int)) → out[p]? = arr[p]? := by
  intro m
  induction m with
  | nil =>
    intro arr out h p _
    rw [Option.some.inj h]
  | cons kv0 m ih =>
    intro arr out h p hne
    rcases hset : setIdx arr kv0.1 (dGInt scale temp kv0.2) with _ | a1
    · rw [show fillLoopTable scale temp (kv0 :: m) arr =
          (setIdx arr kv0.1 (dGInt scale temp kv0.2)).bind (fillLoopTable scale temp m)
          from rfl, hset, Option.none_bind] at h
      exact Option.noConfusion h
    · rw [show fillLoopTable scale temp (kv0 :: m) arr =
          (setIdx arr kv0.1 (dGInt scale temp kv0.2)).bind (fillLoopTable scale temp m)
          from rfl, hset, Option.some_bind] at h
      have hcond : 0 ≤ kv0.1 ∧ kv0.1 < (arr.length : Int) := by
        unfold setIdx at hset
        split at hset
        case isTrue hc => exact hc
        case isFalse hc => exact Option.noConfusion hset
      have ha1 : a1 = arr.set kv0.1.toNat (dGInt scale temp kv0.2) := by
        rw [setIdx, if_pos hcond] at hset
        exact (Option.some.inj hset).symm
      have hstep : a1[p]? = arr[p]? := by
        rw [ha1]
        refine List.getElem?_set_ne ?_
        intro hc
        exact hne kv0 (List.mem_cons_self kv0 m) (by omega)
      rw [ih a1 out h p (fun kv hm => hne kv (List.mem_cons_of_mem kv0 hm)), hstep]

/-- A successful loop-table fill writes the converted energy at every key
(keys distinct, as in a Go map). -/
theorem fillLoopTable_hit (scale temp : Qv) :
    ∀ (m : List (Int × energy)) (arr out : List Int),
      (m.map Prod.fst).Nodup →
      fillLoopTable scale temp m arr = some out →
      ∀ kv ∈ m, out[kv.1.toNat]? = some (dGInt scale temp kv.2) := by
  intro m
  induction m with
  | nil => intro arr out _ h kv hm; exact absurd hm (List.not_mem_nil kv)
  | cons kv0 m ih =>
    intro arr out hnd h kv hm
    rw [List.map_cons, List.nodup_cons] at hnd
    obtain ⟨hnotin, hnd2⟩ := hnd
    rcases hset : setIdx arr kv0.1 (dGInt scale temp kv0.2) with _ | a1
    · rw [show fillLoopTable scale temp (kv0 :: m) arr =
          (setIdx arr kv0.1 (dGInt scale temp kv0.2)).bind (fillLoopTable scale temp m)
          from rfl, hset, Option.none_bind] at h
      exact Option.noConfusion h
    · rw [show fillLoopTable scale temp (kv0 :: m) arr =
          (setIdx arr kv0.1 (dGInt scale temp kv0.2)).bind (fillLoopTable scale temp m)
          from rfl, hset, Option.some_bind] at h
      have hcond : 0 ≤ kv0.1 ∧ kv0.1 < (arr.length : Int) := by
        unfold setIdx at hset
        split at hset
        case isTrue hc => exact hc
        case isFalse hc => exact Option.noConfusion hset
      have ha1 : a1 = arr.set kv0.1.toNat (dGInt scale temp kv0.2) := by
        rw [setIdx, if_pos hcond] at hset
        exact (Option.some.inj hset).symm
      rcases List.mem_cons.mp hm with h1 | h1
      · subst h1
        have huntouched : out[kv.1.toNat]? = a1[kv.1.toNat]? := by
          refine fillLoopTable_untouched scale temp m a1 out h kv.1.toNat ?_
          intro kv2 hm2 hc
          refine hnotin ?_
          have hk : kv2.1 = kv.1 := by omega
          rw [← hk]
          exact List.mem_map_of_mem Prod.fst hm2
        rw [huntouched, ha1]
        have hbound : kv.1.toNat < arr.length := by omega
        simp [List.getElem?_set_self, hbound]
      · exact ih a1 out hnd2 h kv h1

/-- A key at or beyond the array length makes the loop-table fill panic. -/
theorem fillLoopTable_fail (scale temp : Qv) :
    ∀ (m : List (Int × energy)) (arr : List Int),
      (∃ kv ∈ m, (arr.length : Int) ≤ kv.1) →
      fillLoopTable scale temp m arr = none := by
  intro m
  induction m with
  | nil => rintro arr ⟨kv, hm, -⟩; exact absurd hm (List.not_mem_nil kv)
  | cons kv0 m ih =>
    rintro arr ⟨kv, hm, hge⟩
    rcases List.mem_cons.mp hm with h1 | h1
    · have hge0 : (arr.length : Int) ≤ kv0.1 := by rw [h1] at hge; exact hge
      rw [show fillLoopTable scale temp (kv0 :: m) arr =
          (setIdx arr kv0.1 (dGInt scale temp kv0.2)).bind (fillLoopTable scale temp m)
          from rfl]
      have hnone : setIdx arr kv0.1 (dGInt scale temp kv0.2) = none := by
        unfold setIdx
        rw [if_neg]
        rintro ⟨-, hlt⟩
        omega
      rw [hnone, Option.none_bind]
    · rcases hset : setIdx arr kv0.1 (dGInt scale temp kv0.2) with _ | a1
      · rw [show fillLoopTable scale temp (kv0 :: m) arr =
            (setIdx arr kv0.1 (dGInt scale temp kv0.2)).bind (fillLoopTable scale temp m)
            from rfl, hset, Option.none_bind]
      · have hlen : a1.length = arr.length := by
          unfold setIdx at hset
          split at hset
          case isTrue hc => rw [← Option.some.inj hset, List.length_set]
          case isFalse hc => exact Option.noConfusion hset
        rw [show fillLoopTable scale temp (kv0 :: m) arr =
            (setIdx arr kv0.1 (dGInt scale temp kv0.2)).bind (fillLoopTable scale temp m)
            from rfl, hset, Option.some_bind]
        exact ih a1 ⟨kv, h1, by rw [hlen]; exact hge⟩

/-- C7: `ToEnergyParams` pre-tabulates the hairpin, bulge and interior
loop tables as arrays of length exactly 30 (`maxLenPreCalulated`), and the
entry at each loop-length key is the integer truncation of `scale` times
the free-energy delta `ΔG = ΔH − T·ΔS` of that key's enthalpy/entropy
pair. -/
theorem toEnergyParams_pretab (e : energies) (js : Qv → Qv → Qv → Qv → Qv)
    (temp scale : Qv) (ep : EnergyParams)
    (hnd1 : (e.hairpinLoops.map Prod.fst).Nodup)
    (hnd2 : (e.bulgeLoops.map Prod.fst).Nodup)
    (hnd3 : (e.internalLoops.map Prod.fst).Nodup)
    (h : e.ToEnergyParams js temp scale = some ep) :
    maxLenPreCalulated = 30 ∧
    ep.HairpinLoop.length = maxLenPreCalulated ∧
    ep.Bulge.length = maxLenPreCalulated ∧
    ep.InteriorLoop.length = maxLenPreCalulated ∧
    (∀ kv ∈ e.hairpinLoops,
      ep.HairpinLoop[kv.1.toNat]? =
        some (Qv.trunc (Qv.mul scale (deltaG kv.2.enthalpyH kv.2.entropyS temp)))) ∧
    (∀ kv ∈ e.bulgeLoops,
      ep.Bulge[kv.1.toNat]? =
        some (Qv.trunc (Qv.mul scale (deltaG kv.2.enthalpyH kv.2.entropyS temp)))) ∧
    (∀ kv ∈ e.internalLoops,
      ep.InteriorLoop[kv.1.toNat]? =
        some (Qv.trunc (Qv.mul scale (deltaG kv.2.enthalpyH kv.2.entropyS temp)))) := by
  unfold energies.ToEnergyParams at h
  rcases h1 : fillLoopTable scale temp e.hairpinLoops
      (List.replicate maxLenPreCalulated 0) with _ | hp
  · rw [h1, Option.none_bind] at h
    exact Option.noConfusion h
  rw [h1, Option.some_bind] at h
  rcases h2 : fillLoopTable scale temp e.bulgeLoops
      (List.replicate maxLenPreCalulated 0) with _ | bl
  · rw [h2, Option.none_bind] at h
    exact Option.noConfusion h
  rw [h2, Option.some_bind] at h
  rcases h3 : fillLoopTable scale temp e.internalLoops
      (List.replicate maxLenPreCalulated 0) with _ | il
  · rw [h3, Option.none_bind] at h
    exact Option.noConfusion h
  rw [h3, Option.some_bind] at h
  obtain rfl := Option.some.inj h
  refine ⟨rfl, ?_, ?_, ?_, fun kv hm => ?_, fun kv hm => ?_, fun kv hm => ?_⟩
  · show hp.length = maxLenPreCalulated
    rw [fillLoopTable_length scale temp _ _ _ h1, List.length_replicate]
  · show bl.length = maxLenPreCalulated
    rw [fillLoopTable_length scale temp _ _ _ h2, List.length_replicate]
  · show il.length = maxLenPreCalulated
    rw [fillLoopTable_length scale temp _ _ _ h3, List.length_replicate]
  · exact fillLoopTable_hit scale temp _ _ _ hnd1 h1 kv hm
  · exact fillLoopTable_hit scale temp _ _ _ hnd2 h2 kv hm
  · exact fillLoopTable_hit scale temp _ _ _ hnd3 h3 kv hm

/-- Witness for C7 at a concrete one-entry energy bundle. -/
theorem toEnergyParams_pretab_witness :
    maxLenPreCalulated = 30 ∧
    epOneHairpin.HairpinLoop.length = maxLenPreCalulated ∧
    epOneHairpin.HairpinLoop[(0 : Int).toNat]? =
      some (Qv.trunc (Qv.mul ⟨1, 1⟩ (deltaG ⟨1, 1⟩ ⟨0, 1⟩ ⟨0, 1⟩))) :=
  have ht := toEnergyParams_pretab eOneHairpin js0 ⟨0, 1⟩ ⟨1, 1⟩ epOneHairpin
    (by decide) (by decide) (by decide) (by decide)
  ⟨ht.1, ht.2.1, ht.2.2.2.2.1 (0, ⟨⟨1, 1⟩, ⟨0, 1⟩⟩) (by decide)⟩

/-- C9: the direct array indexing of `ToEnergyParams` by loop-length keys
is in range only when every hairpin, bulge and internal loop key is below
30; a key of 30 or more makes the write panic. -/
theorem toEnergyParams_keyRange (e : energies) (js : Qv → Qv → Qv → Qv → Qv)
    (temp scale : Qv) :
    ((∃ ep, e.ToEnergyParams js temp scale = some ep) →
      ∀ kv ∈ e.hairpinLoops ++ e.bulgeLoops ++ e.internalLoops,
        kv.1 < (maxLenPreCalulated : Int)) ∧
    ((∃ kv ∈ e.hairpinLoops ++ e.bulgeLoops ++ e.internalLoops,
        (maxLenPreCalulated : Int) ≤ kv.1) →
      e.ToEnergyParams js temp scale = none) := by
  constructor
  · rintro ⟨ep, h⟩ kv hm
    unfold energies.ToEnergyParams at h
    rcases h1 : fillLoopTable scale temp e.hairpinLoops
        (List.replicate maxLenPreCalulated 0) with _ | hp
    · rw [h1, Option.none_bind] at h
      exact Option.noConfusion h
    rw [h1, Option.some_bind] at h
    rcases h2 : fillLoopTable scale temp e.bulgeLoops
        (List.replicate maxLenPreCalulated 0) with _ | bl
    · rw [h2, Option.none_bind] at h
      exact Option.noConfusion h
    rw [h2, Option.some_bind] at h
    rcases h3 : fillLoopTable scale temp e.internalLoops
        (List.replicate maxLenPreCalulated 0) with _ | il
    · rw [h3, Option.none_bind] at h
      exact Option.noConfusion h
    rcases List.mem_append.mp hm with hm12 | hm3
    · rcases List.mem_append.mp hm12 with hm1 | hm2
      · have hb := fillLoopTable_mem_bounds scale temp _ _ _ h1 kv hm1
        rw [List.length_replicate] at hb
        exact hb.2
      · have hb := fillLoopTable_mem_bounds scale temp _ _ _ h2 kv hm2
        rw [List.length_replicate] at hb
        exact hb.2
    · have hb := fillLoopTable_mem_bounds scale temp _ _ _ h3 kv hm3
      rw [List.length_replicate] at hb
      exact hb.2
  · rintro ⟨kv, hm, hge⟩
    unfold energies.ToEnergyParams
    rcases List.mem_append.mp hm with hm12 | hm3
    · rcases List.mem_append.mp hm12 with hm1 | hm2
      · rw [fillLoopTable_fail scale temp _ _
            ⟨kv, hm1, by rw [List.length_replicate]; exact hge⟩, Option.none_bind]
      · rcases h1 : fillLoopTable scale temp e.hairpinLoops
            (List.replicate maxLenPreCalulated 0) with _ | hp
        · rw [Option.none_bind]
        · rw [Option.some_bind, fillLoopTable_fail scale temp _ _
              ⟨kv, hm2, by rw [List.length_replicate]; exact hge⟩, Option.none_bind]
    · rcases h1 : fillLoopTable scale temp e.hairpinLoops
          (List.replicate maxLenPreCalulated 0) with _ | hp
      · rw [Option.none_bind]
      · rw [Option.some_bind]
        rcases h2 : fillLoopTable scale temp e.bulgeLoops
            (List.replicate maxLenPreCalulated 0) with _ | bl
        · rw [Option.none_bind]
        · rw [Option.some_bind, fillLoopTable_fail scale temp _ _
              ⟨kv, hm3, by rw [List.length_replicate]; exact hge⟩, Option.none_bind]

/-- Witness for C9: an in-range bundle converts and its key is below 30;
a bundle with the key 30 panics. -/
theorem toEnergyParams_keyRange_witness :
    ((0 : Int), (⟨⟨1, 1⟩, ⟨0, 1⟩⟩ : energy)).1 < (maxLenPreCalulated : Int) ∧
    eBadKey.ToEnergyParams js0 ⟨0, 1⟩ ⟨1, 1⟩ = none :=
  ⟨(toEnergyParams_keyRange eOneHairpin js0 ⟨0, 1⟩ ⟨1, 1⟩).1 ⟨epOneHairpin, by decide⟩
      (0, ⟨⟨1, 1⟩, ⟨0, 1⟩⟩) (by decide),
   (toEnergyParams_keyRange eBadKey js0 ⟨0, 1⟩ ⟨1, 1⟩).2
      ⟨(30, ⟨⟨1, 1⟩, ⟨0, 1⟩⟩), by decide, by decide⟩⟩

/-- The running maximum of `DotBracket`'s first loop never decreases. -/
theorem le_foldl_maxEnd : ∀ (l : List subsequence) (a : Int), a ≤ l.foldl maxEndStep a := by
  intro l
  induction l with
  | nil => intro a; exact le_refl a
  | cons iv l ih =>
    intro a
    refine le_trans ?_ (ih (maxEndStep a iv))
    unfold maxEndStep
    split
    · omega
    · exact le_refl a

/-- Every interval end participating in the running maximum is below it. -/
theorem end_le_foldl_maxEnd : ∀ (l : List subsequence) (a : Int), ∀ iv ∈ l,
    iv.«end» ≤ l.foldl maxEndStep a := by
  intro l
  induction l with
  | nil => intro a iv hm; exact absurd hm (List.not_mem_nil iv)
  | cons iv0 l ih =>
    intro a iv hm
    rcases List.mem_cons.mp hm with h1 | h1
    · subst h1
      refine le_trans ?_ (le_foldl_maxEnd l (maxEndStep a iv))
      unfold maxEndStep
      split
      · exact le_refl _
      · omega
    · exact ih (maxEndStep a iv0) iv h1

/-- The outer fold of `lastEnd` never decreases the accumulator. -/
theorem le_foldl_structs : ∀ (l : List nucleicAcidStructure) (a : Int),
    a ≤ l.foldl (fun acc st => st.inner.foldl maxEndStep acc) a := by
  intro l
  induction l with
  | nil => intro a; exact le_refl a
  | cons st l ih =>
    intro a
    exact le_trans (le_foldl_maxEnd st.inner a) (ih (st.inner.foldl maxEndStep a))

/-- `lastEnd` dominates every inner-interval end. -/
theorem end_le_lastEnd : ∀ (sts : List nucleicAcidStructure) (a : Int),
    ∀ st ∈ sts, ∀ iv ∈ st.inner,
      iv.«end» ≤ sts.foldl (fun acc st => st.inner.foldl maxEndStep acc) a := by
  intro sts
  induction sts with
  | nil => intro a st hm; exact absurd hm (List.not_mem_nil st)
  | cons st0 sts ih =>
    intro a st hm iv hiv
    rcases List.mem_cons.mp hm with h1 | h1
    · subst h1
      exact le_trans (end_le_foldl_maxEnd st.inner a iv hiv)
        (le_foldl_structs sts (st.inner.foldl maxEndStep a))
    · exact ih (st0.inner.foldl maxEndStep a) st h1 iv hiv

/-- `lastEnd` is never negative (the running maximum starts at `0`). -/
theorem lastEnd_nonneg (sts : List nucleicAcidStructure) : 0 ≤ lastEnd sts :=
  le_foldl_structs sts 0

/-- A member of `singlePairs` comes from a record whose inner list is
exactly that interval. -/
theorem mem_singlePairs : ∀ (sts : List nucleicAcidStructure) (iv : subsequence),
    iv ∈ singlePairs sts → ∃ st ∈ sts, st.inner = [iv] := by
  intro sts
  induction sts with
  | nil => intro iv hm; exact absurd hm (List.not_mem_nil iv)
  | cons st0 sts ih =>
    intro iv hm
    rcases hinner : st0.inner with _ | ⟨jv, tl⟩
    · have hsp : singlePairs (st0 :: sts) = singlePairs sts := by
        unfold singlePairs
        rw [List.filterMap_cons, hinner]
      rw [hsp] at hm
      obtain ⟨st, hst, he⟩ := ih iv hm
      exact ⟨st, List.mem_cons_of_mem st0 hst, he⟩
    · rcases tl with _ | ⟨jv2, tl2⟩
      · have hsp : singlePairs (st0 :: sts) = jv :: singlePairs sts := by
          unfold singlePairs
          rw [List.filterMap_cons, hinner]
        rw [hsp] at hm
        rcases List.mem_cons.mp hm with h1 | h1
        · exact ⟨st0, List.mem_cons_self st0 sts, by rw [hinner, h1]⟩
        · obtain ⟨st, hst, he⟩ := ih iv h1
          exact ⟨st, List.mem_cons_of_mem st0 hst, he⟩
      · have hsp : singlePairs (st0 :: sts) = singlePairs sts := by
          unfold singlePairs
          rw [List.filterMap_cons, hinner]
        rw [hsp] at hm
        obtain ⟨st, hst, he⟩ := ih iv hm
        exact ⟨st, List.mem_cons_of_mem st0 hst, he⟩

/-- `writePairs` only visits the single-interval records, in order. -/
theorem writePairs_eq_writeIvs : ∀ (sts : List nucleicAcidStructure) (b : List Char),
    writePairs sts b = writeIvs (singlePairs sts) b := by
  intro sts
  induction sts with
  | nil => intro b; rfl
  | cons st sts ih =>
    intro b
    rcases hinner : st.inner with _ | ⟨iv, tl⟩
    · have hsp : singlePairs (st :: sts) = singlePairs sts := by
        unfold singlePairs
        rw [List.filterMap_cons, hinner]
      have hw : writePairs (st :: sts) b = writePairs sts b := by
        show ((match st.inner with
            | [iv] => (setByte b iv.start '(').bind (fun b1 => setByte b1 iv.«end» ')')
            | _ => some b).bind (writePairs sts)) = writePairs sts b
        rw [hinner]
        rfl
      rw [hw, hsp, ih]
    · rcases tl with _ | ⟨iv2, tl2⟩
      · have hsp : singlePairs (st :: sts) = iv :: singlePairs sts := by
          unfold singlePairs
          rw [List.filterMap_cons, hinner]
        have hw : writePairs (st :: sts) b =
            ((setByte b iv.start '(').bind
              (fun b1 => setByte b1 iv.«end» ')')).bind (writePairs sts) := by
          show ((match st.inner with
              | [iv] => (setByte b iv.start '(').bind (fun b1 => setByte b1 iv.«end» ')')
              | _ => some b).bind (writePairs sts)) =
            ((setByte b iv.start '(').bind
              (fun b1 => setByte b1 iv.«end» ')')).bind (writePairs sts)
          rw [hinner]
        rw [hw, hsp]
        show _ = ((setByte b iv.start '(').bind
            (fun b1 => setByte b1 iv.«end» ')')).bind (writeIvs (singlePairs sts))
        rcases (setByte b iv.start '(').bind (fun b1 => setByte b1 iv.«end» ')') with _ | bb
        · rfl
        · rw [Option.some_bind, Option.some_bind, ih]
      · have hsp : singlePairs (st :: sts) = singlePairs sts := by
          unfold singlePairs
          rw [List.filterMap_cons, hinner]
        have hw : writePairs (st :: sts) b = writePairs sts b := by
          show ((match st.inner with
              | [iv] => (setByte b iv.start '(').bind (fun b1 => setByte b1 iv.«end» ')')
              | _ => some b).bind (writePairs sts)) = writePairs sts b
          rw [hinner]
          rfl
        rw [hw, hsp, ih]

/-- Characterisation of the buffer after the write loop: when every
endpoint is in range and no start index collides with an end index, the
loop succeeds, preserves the length, and leaves `'('` at each start
position, `')'` at each end position, and the previous character
elsewhere. -/
theorem writeIvs_chars : ∀ (ivs : List subsequence) (b : List Char),
    (∀ iv ∈ ivs, 0 ≤ iv.start ∧ iv.start < (b.length : Int) ∧
                 0 ≤ iv.«end» ∧ iv.«end» < (b.length : Int)) →
    (∀ iv1 ∈ ivs, ∀ iv2 ∈ ivs, iv1.start ≠ iv2.«end») →
    ∃ bOut, writeIvs ivs b = some bOut ∧ bOut.length = b.length ∧
      ∀ p : Nat, p < b.length →
        bOut[p]? = (if ivs.any (fun iv => iv.start == (p : Int)) then some '('
                    else if ivs.any (fun iv => iv.«end» == (p : Int)) then some ')'
                    else b[p]?) := by
  intro ivs
  induction ivs with
  | nil =>
    intro b hb hcol
    refine ⟨b, rfl, rfl, fun p hp => ?_⟩
    simp
  | cons iv ivs ih =>
    intro b hb hcol
    obtain ⟨hs0, hsL, he0, heL⟩ := hb iv (List.mem_cons_self iv ivs)
    have hse : iv.start ≠ iv.«end» :=
      hcol iv (List.mem_cons_self iv ivs) iv (List.mem_cons_self iv ivs)
    have hset1 : setByte b iv.start '(' = some (b.set iv.start.toNat '(') := by
      unfold setByte
      rw [if_pos ⟨hs0, hsL⟩]
    have hset2 : setByte (b.set iv.start.toNat '(') iv.«end» ')' =
        some ((b.set iv.start.toNat '(').set iv.«end».toNat ')') := by
      unfold setByte
      rw [if_pos]
      exact ⟨he0, by rw [List.length_set]; exact heL⟩
    have hstep : writeIvs (iv :: ivs) b =
        writeIvs ivs ((b.set iv.start.toNat '(').set iv.«end».toNat ')') := by
      show ((setByte b iv.start '(').bind (fun b1 => setByte b1 iv.«end» ')')).bind
          (writeIvs ivs) =
        writeIvs ivs ((b.set iv.start.toNat '(').set iv.«end».toNat ')')
      rw [hset1, Option.some_bind, hset2, Option.some_bind]
    have hlen2 : ((b.set iv.start.toNat '(').set iv.«end».toNat ')').length = b.length := by
      rw [List.length_set, List.length_set]
    obtain ⟨bOut, hout, hlen, hchars⟩ :=
      ih ((b.set iv.start.toNat '(').set iv.«end».toNat ')')
        (fun jv hm => by rw [hlen2]; exact hb jv (List.mem_cons_of_mem iv hm))
        (fun jv1 hm1 jv2 hm2 =>
          hcol jv1 (List.mem_cons_of_mem iv hm1) jv2 (List.mem_cons_of_mem iv hm2))
    refine ⟨bOut, by rw [hstep]; exact hout, by rw [hlen, hlen2], fun p hp => ?_⟩
    have hp2 : p < ((b.set iv.start.toNat '(').set iv.«end».toNat ')').length := by
      rw [hlen2]
      exact hp
    rw [hchars p hp2, List.any_cons, List.any_cons]
    by_cases ho : ivs.any (fun jv => jv.start == (p : Int)) = true
    · simp [ho]
    · by_cases hc : ivs.any (fun jv => jv.«end» == (p : Int)) = true
      · have hso : (iv.start == (p : Int)) = false := by
          rw [beq_eq_false_iff_ne]
          intro heq
          obtain ⟨jv, hjm, hje⟩ := List.any_eq_true.mp hc
          exact hcol iv (List.mem_cons_self iv ivs) jv (List.mem_cons_of_mem iv hjm)
            (heq.trans (beq_iff_eq.mp hje).symm)
        simp [ho, hc, hso]
      · by_cases hps : iv.start = (p : Int)
        · have hpne : iv.start.toNat = p := by omega
          have hpee : iv.«end».toNat ≠ p := by omega
          have hval : ((b.set p '(').set iv.«end».toNat ')')[p]? = some '(' := by
            rw [List.getElem?_set_ne hpee]
            simp [List.getElem?_set_self, hp]
          simp [ho, hc, hps, hpne, hval]
        · by_cases hpe : iv.«end» = (p : Int)
          · have hpee : iv.«end».toNat = p := by omega
            have hso : (iv.start == (p : Int)) = false := by
              rw [beq_eq_false_iff_ne]
              exact fun heq => hps heq
            have hbd : p < (b.set iv.start.toNat '(').length := by
              rw [List.length_set]
              exact hp
            have hval : ((b.set iv.start.toNat '(').set p ')')[p]? = some ')' := by
              simp [hp]
            simp [ho, hc, hso, hpe, hpee, hval]
          · have hpse : iv.start.toNat ≠ p := by omega
            have hpee : iv.«end».toNat ≠ p := by omega
            have hval : ((b.set iv.start.toNat '(').set iv.«end».toNat ')')[p]? = b[p]? := by
              rw [List.getElem?_set_ne hpee, List.getElem?_set_ne hpse]
            have hso : (iv.start == (p : Int)) = false := by
              rw [beq_eq_false_iff_ne]
              exact fun heq => hps heq
            have hce : (iv.«end» == (p : Int)) = false := by
              rw [beq_eq_false_iff_ne]
              exact fun heq => hpe heq
            simp [ho, hc, hso, hce, hval]

/-- `any` of a comparison through a projection. -/
theorem any_map_beq (f : subsequence → Int) (c : Int) : ∀ ivs : List subsequence,
    (ivs.map f).any (fun z => z == c) = ivs.any (fun iv => f iv == c) := by
  intro ivs
  induction ivs with
  | nil => rfl
  | cons iv ivs ih => rw [List.map_cons, List.any_cons, List.any_cons, ih]

/-- Counting a disjunction of disjoint predicates adds the counts. -/
theorem countP_or_disjoint (f g : Nat → Bool) : ∀ l : List Nat,
    (∀ x ∈ l, ¬(f x = true ∧ g x = true)) →
    l.countP (fun x => f x || g x) = l.countP f + l.countP g := by
  intro l
  induction l with
  | nil => intro _; rfl
  | cons a l ih =>
    intro h
    rw [List.countP_cons, List.countP_cons, List.countP_cons,
      ih (fun x hx => h x (List.mem_cons_of_mem a hx))]
    by_cases hf : f a = true
    · by_cases hg : g a = true
      · exact absurd ⟨hf, hg⟩ (h a (List.mem_cons_self a l))
      · simp [hf, hg]
        omega
    · by_cases hg : g a = true
      · simp [hf, hg]
        omega
      · simp [hf, hg]

/-- How often a fixed integer occurs among the positions `0 .. n-1`. -/
theorem countP_range_single (z : Int) (n : Nat) :
    (List.range n).countP (fun (p : Nat) => z == (p : Int)) =
      if 0 ≤ z ∧ z < (n : Int) then 1 else 0 := by
  by_cases hz : 0 ≤ z ∧ z < (n : Int)
  · rw [if_pos hz]
    have hc : ∀ p ∈ List.range n, (z == (p : Int)) = true ↔ (p == z.toNat) = true := by
      intro p hp
      rw [beq_iff_eq, beq_iff_eq]
      omega
    rw [List.countP_congr hc, ← List.count_eq_countP]
    exact List.count_eq_one_of_mem (List.nodup_range n) (List.mem_range.mpr (by omega))
  · rw [if_neg hz]
    refine List.countP_eq_zero.mpr ?_
    intro p hp hbe
    rw [List.mem_range] at hp
    have := beq_iff_eq.mp hbe
    exact hz ⟨by omega, by omega⟩

/-- Counting the positions of `0 .. n-1` hit by a duplicate-free list of
integers counts the members of the list lying in `[0, n)`. -/
theorem countP_range_mem : ∀ zs : List Int, zs.Nodup → ∀ n : Nat,
    (List.range n).countP (fun (p : Nat) => zs.any (fun z => z == (p : Int))) =
      zs.countP (fun z => decide (0 ≤ z ∧ z < (n : Int))) := by
  intro zs
  induction zs with
  | nil => intro _ n; simp
  | cons z zs ih =>
    intro hnd n
    rw [List.nodup_cons] at hnd
    obtain ⟨hnotin, hnd2⟩ := hnd
    have hsplit : (List.range n).countP
          (fun (p : Nat) => (z :: zs).any (fun w => w == (p : Int))) =
        (List.range n).countP (fun (p : Nat) => z == (p : Int)) +
        (List.range n).countP (fun (p : Nat) => zs.any (fun w => w == (p : Int))) := by
      have hcg : ∀ p ∈ List.range n,
          ((z :: zs).any (fun w => w == (p : Int))) = true ↔
          ((z == (p : Int)) || zs.any (fun w => w == (p : Int))) = true := by
        intro p hp
        rw [List.any_cons]
      rw [List.countP_congr hcg]
      refine countP_or_disjoint _ _ _ ?_
      rintro p hp ⟨h1, h2⟩
      obtain ⟨w, hw, hwe⟩ := List.any_eq_true.mp h2
      have hz1 := beq_iff_eq.mp h1
      have hz2 := beq_iff_eq.mp hwe
      exact hnotin ((hz2.trans hz1.symm) ▸ hw)
    rw [hsplit, countP_range_single, ih hnd2 n, List.countP_cons]
    by_cases hz : 0 ≤ z ∧ z < (n : Int)
    · rw [if_pos hz, if_pos (by rw [decide_eq_true_eq]; exact hz)]
      omega
    · rw [if_neg hz, if_neg (by rw [decide_eq_true_eq]; exact hz)]
      omega

/-- C2 counterexample: a Result whose single record's interval starts and
ends at the same index renders as `")"`; the claimed shape (with `'('` at
the start index) fails. -/
theorem dotBracket_shape_cex :
    Result.DotBracket ⟨[⟨"", [⟨0, 0⟩], GFloat.fin ⟨0, 1⟩⟩]⟩ = some ")" ∧
    dotBracketSpec ⟨[⟨"", [⟨0, 0⟩], GFloat.fin ⟨0, 1⟩⟩]⟩ ")" = false := by
  constructor
  · rfl
  · rfl

/-- C2 (amended): for every non-empty Result whose single-interval records
have in-range non-negative endpoints and no start index equal to any end
index, `DotBracket` returns a string of length `lastEnd + 1` with `'('` at
every start index, `')'` at every end index, and `'.'` elsewhere. -/
theorem dotBracket_shape (r : Result)
    (h0 : r.structs ≠ [])
    (hb : ∀ iv ∈ singlePairs r.structs,
      0 ≤ iv.start ∧ iv.start ≤ lastEnd r.structs ∧ 0 ≤ iv.«end»)
    (hcol : ∀ iv1 ∈ singlePairs r.structs, ∀ iv2 ∈ singlePairs r.structs,
      iv1.start ≠ iv2.«end») :
    dotBracketMeets r = true := by
  have hle0 : 0 ≤ lastEnd r.structs := lastEnd_nonneg r.structs
  have hend_le : ∀ iv ∈ singlePairs r.structs, iv.«end» ≤ lastEnd r.structs := by
    intro iv hiv
    obtain ⟨st, hst, hinner⟩ := mem_singlePairs r.structs iv hiv
    exact end_le_lastEnd r.structs 0 st hst iv (by rw [hinner]; exact List.mem_cons_self iv [])
  have hbounds : ∀ iv ∈ singlePairs r.structs,
      0 ≤ iv.start ∧
      iv.start < ((List.replicate (lastEnd r.structs + 1).toNat '.').length : Int) ∧
      0 ≤ iv.«end» ∧
      iv.«end» < ((List.replicate (lastEnd r.structs + 1).toNat '.').length : Int) := by
    intro iv hiv
    obtain ⟨h1, h2, h3⟩ := hb iv hiv
    have h4 := hend_le iv hiv
    rw [List.length_replicate]
    omega
  obtain ⟨bOut, hw, hlen, hchars⟩ :=
    writeIvs_chars (singlePairs r.structs)
      (List.replicate (lastEnd r.structs + 1).toNat '.') hbounds hcol
  have hdb : r.DotBracket = some (String.mk bOut) := by
    unfold Result.DotBracket
    rw [if_neg h0, writePairs_eq_writeIvs, hw]
    rfl
  have hblen : bOut.length = (lastEnd r.structs + 1).toNat := by
    rw [hlen, List.length_replicate]
  unfold dotBracketMeets
  rw [hdb]
  show dotBracketSpec r (String.mk bOut) = true
  unfold dotBracketSpec
  rw [Bool.and_eq_true, Bool.and_eq_true]
  refine ⟨⟨?_, ?_⟩, ?_⟩
  · show ((String.mk bOut).length == (lastEnd r.structs + 1).toNat) = true
    have hsl : (String.mk bOut).length = bOut.length := rfl
    rw [hsl, hblen]
    exact beq_self_eq_true _
  · rw [List.all_eq_true]
    intro iv hiv
    obtain ⟨h1, h2, h3⟩ := hb iv hiv
    have h4 := hend_le iv hiv
    rw [Bool.and_eq_true]
    constructor
    · show (charAt (String.mk bOut) iv.start == some '(') = true
      unfold charAt
      rw [if_pos h1]
      have hcs := hchars iv.start.toNat (by rw [List.length_replicate]; omega)
      have hopen : ((singlePairs r.structs).any
          (fun jv => jv.start == ((iv.start.toNat : Nat) : Int))) = true := by
        refine List.any_eq_true.mpr ⟨iv, hiv, ?_⟩
        refine beq_iff_eq.mpr ?_
        omega
      rw [show (String.mk bOut).data = bOut from rfl, hcs, if_pos hopen]
      rfl
    · show (charAt (String.mk bOut) iv.«end» == some ')') = true
      unfold charAt
      rw [if_pos h3]
      have hcs := hchars iv.«end».toNat (by rw [List.length_replicate]; omega)
      have hopenF : ((singlePairs r.structs).any
          (fun jv => jv.start == ((iv.«end».toNat : Nat) : Int))) = false := by
        rw [Bool.eq_false_iff]
        intro hcon
        obtain ⟨jv, hjm, hje⟩ := List.any_eq_true.mp hcon
        refine hcol jv hjm iv hiv ?_
        have := beq_iff_eq.mp hje
        omega
      have hclose : ((singlePairs r.structs).any
          (fun jv => jv.«end» == ((iv.«end».toNat : Nat) : Int))) = true := by
        refine List.any_eq_true.mpr ⟨iv, hiv, ?_⟩
        refine beq_iff_eq.mpr ?_
        omega
      rw [show (String.mk bOut).data = bOut from rfl, hcs,
        if_neg (by rw [hopenF]; exact Bool.false_ne_true), if_pos hclose]
      rfl
  · rw [List.all_eq_true]
    intro p hp
    rw [List.mem_range] at hp
    have hsl : (String.mk bOut).length = bOut.length := rfl
    rw [hsl] at hp
    by_cases ho : isOpenPos r.structs p = true
    · rw [ho]
      rfl
    · by_cases hc : isClosePos r.structs p = true
      · rw [hc, Bool.or_true, Bool.true_or]  -- careful with assoc; fix below if needed
      · have hoF : isOpenPos r.structs p = false := Bool.eq_false_iff.mpr ho
        have hcF : isClosePos r.structs p = false := Bool.eq_false_iff.mpr hc
        have hcs := hchars p (by rw [List.length_replicate, ← hblen]; exact hp)
        unfold isOpenPos at hoF
        unfold isClosePos at hcF
        have hdot : bOut[p]? = some '.' := by
          rw [hcs, if_neg (by rw [hoF]; exact Bool.false_ne_true),
            if_neg (by rw [hcF]; exact Bool.false_ne_true), List.getElem?_replicate,
            if_pos (by rw [← hblen]; exact hp)]
        show (isOpenPos r.structs p || isClosePos r.structs p ||
          ((String.mk bOut).data[p]? == some '.')) = true
        rw [show (String.mk bOut).data = bOut from rfl]
        unfold isOpenPos isClosePos
        rw [hoF, hcF, hdot]
        rfl

/-- Witness for C2 (amended) at a concrete two-pair Result. -/
theorem dotBracket_shape_witness :
    dotBracketMeets ⟨[⟨"stack", [⟨0, 3⟩], GFloat.fin ⟨-5, 1⟩⟩,
      ⟨"pair", [⟨1, 2⟩], GFloat.fin ⟨1, 2⟩⟩]⟩ = true :=
  dotBracket_shape ⟨[⟨"stack", [⟨0, 3⟩], GFloat.fin ⟨-5, 1⟩⟩,
      ⟨"pair", [⟨1, 2⟩], GFloat.fin ⟨1, 2⟩⟩]⟩
    (by decide) (by decide) (by decide)

/-- C4 counterexample: a Result whose single record's interval starts and
ends at index 1 renders as `".)"`, which is not balanced. -/
theorem dotBracket_balanced_cex :
    Result.DotBracket ⟨[⟨"", [⟨1, 1⟩], GFloat.fin ⟨0, 1⟩⟩]⟩ = some ".)" ∧
    balancedB ".)" = false := by
  constructor
  · rfl
  · rfl

/-- C4 (amended): for every Result whose single-interval records have
pairwise distinct start indices, pairwise distinct end indices, no start
index equal to any end index, and `0 ≤ start < end` in each record,
`DotBracket` returns a balanced string. -/
theorem dotBracket_balanced_wf (r : Result)
    (hnds : ((singlePairs r.structs).map subsequence.start).Nodup)
    (hnde : ((singlePairs r.structs).map (fun iv => iv.«end»)).Nodup)
    (hcol : ∀ iv1 ∈ singlePairs r.structs, ∀ iv2 ∈ singlePairs r.structs,
      iv1.start ≠ iv2.«end»)
    (hse : ∀ iv ∈ singlePairs r.structs, 0 ≤ iv.start ∧ iv.start < iv.«end») :
    dotBracketBalanced r = true := by
  by_cases h0 : r.structs = []
  · unfold dotBracketBalanced
    rw [show r.DotBracket = some "" from by unfold Result.DotBracket; rw [if_pos h0]]
    rfl
  · have hle0 : 0 ≤ lastEnd r.structs := lastEnd_nonneg r.structs
    have hend_le : ∀ iv ∈ singlePairs r.structs, iv.«end» ≤ lastEnd r.structs := by
      intro iv hiv
      obtain ⟨st, hst, hinner⟩ := mem_singlePairs r.structs iv hiv
      exact end_le_lastEnd r.structs 0 st hst iv
        (by rw [hinner]; exact List.mem_cons_self iv [])
    have hbounds : ∀ iv ∈ singlePairs r.structs,
        0 ≤ iv.start ∧
        iv.start < ((List.replicate (lastEnd r.structs + 1).toNat '.').length : Int) ∧
        0 ≤ iv.«end» ∧
        iv.«end» < ((List.replicate (lastEnd r.structs + 1).toNat '.').length : Int) := by
      intro iv hiv
      obtain ⟨h1, h2⟩ := hse iv hiv
      have h4 := hend_le iv hiv
      rw [List.length_replicate]
      omega
    obtain ⟨bOut, hw, hlen, hchars⟩ :=
      writeIvs_chars (singlePairs r.structs)
        (List.replicate (lastEnd r.structs + 1).toNat '.') hbounds hcol
    have hdb : r.DotBracket = some (String.mk bOut) := by
      unfold Result.DotBracket
      rw [if_neg h0, writePairs_eq_writeIvs, hw]
      rfl
    have hblen : bOut.length = (lastEnd r.structs + 1).toNat := by
      rw [hlen, List.length_replicate]
    have hform : bOut =
        (List.range (lastEnd r.structs + 1).toNat).map (charOfPos r.structs) := by
      refine List.ext_getElem? ?_
      intro i
      by_cases hi : i < (lastEnd r.structs + 1).toNat
      · rw [List.getElem?_map, List.getElem?_range hi,
          hchars i (by rw [List.length_replicate]; exact hi),
          List.getElem?_replicate, if_pos hi]
        show _ = some (charOfPos r.structs i)
        unfold charOfPos isOpenPos isClosePos
        by_cases hA : (singlePairs r.structs).any (fun iv => iv.start == (i : Int)) = true
        · simp [hA]
        · by_cases hB :
              (singlePairs r.structs).any (fun iv => iv.«end» == (i : Int)) = true
          · simp [hA, hB]
          · simp [hA, hB]
      · have e1 : bOut[i]? = none := List.getElem?_eq_none (by rw [hblen]; omega)
        have e2 : ((List.range (lastEnd r.structs + 1).toNat).map
            (charOfPos r.structs))[i]? = none :=
          List.getElem?_eq_none (by rw [List.length_map, List.length_range]; omega)
        rw [e1, e2]
    have hdisj : ∀ p : Nat,
        (singlePairs r.structs).any (fun iv => iv.start == (p : Int)) = true →
        (singlePairs r.structs).any (fun iv => iv.«end» == (p : Int)) = true → False := by
      intro p h1 h2
      obtain ⟨iv1, hm1, he1⟩ := List.any_eq_true.mp h1
      obtain ⟨iv2, hm2, he2⟩ := List.any_eq_true.mp h2
      exact hcol iv1 hm1 iv2 hm2 ((beq_iff_eq.mp he1).trans (beq_iff_eq.mp he2).symm)
    have hcount_open : ∀ k : Nat,
        ((List.range k).map (charOfPos r.structs)).count '(' =
        ((singlePairs r.structs).map subsequence.start).countP
          (fun z => decide (0 ≤ z ∧ z < (k : Int))) := by
      intro k
      rw [List.count_eq_countP, List.countP_map, ← countP_range_mem _ hnds k]
      refine List.countP_congr ?_
      intro p hp
      show (charOfPos r.structs p == '(') = true ↔
        ((singlePairs r.structs).map subsequence.start).any
          (fun z => z == (p : Int)) = true
      rw [any_map_beq]
      unfold charOfPos isOpenPos isClosePos
      by_cases hA : (singlePairs r.structs).any (fun iv => iv.start == (p : Int)) = true
      · simp [hA]
      · by_cases hB :
            (singlePairs r.structs).any (fun iv => iv.«end» == (p : Int)) = true
        · simp [hA, hB]
        · simp [hA, hB]
    have hcount_close : ∀ k : Nat,
        ((List.range k).map (charOfPos r.structs)).count ')' =
        ((singlePairs r.structs).map (fun iv => iv.«end»)).countP
          (fun z => decide (0 ≤ z ∧ z < (k : Int))) := by
      intro k
      rw [List.count_eq_countP, List.countP_map, ← countP_range_mem _ hnde k]
      refine List.countP_congr ?_
      intro p hp
      show (charOfPos r.structs p == ')') = true ↔
        ((singlePairs r.structs).map (fun iv => iv.«end»)).any
          (fun z => z == (p : Int)) = true
      rw [any_map_beq]
      unfold charOfPos isOpenPos isClosePos
      by_cases hA : (singlePairs r.structs).any (fun iv => iv.start == (p : Int)) = true
      · have hBf : (singlePairs r.structs).any
            (fun iv => iv.«end» == (p : Int)) = false :=
          Bool.eq_false_iff.mpr (fun hB => hdisj p hA hB)
        simp [hA, hBf]
      · by_cases hB :
            (singlePairs r.structs).any (fun iv => iv.«end» == (p : Int)) = true
        · simp [hA, hB]
        · simp [hA, hB]
    have hsn : ((singlePairs r.structs).map subsequence.start).countP
        (fun z => decide (0 ≤ z ∧ z < (((lastEnd r.structs + 1).toNat : Nat) : Int))) =
        ((singlePairs r.structs).map subsequence.start).length := by
      refine List.countP_eq_length.mpr ?_
      intro z hz
      obtain ⟨iv, hiv, hfz⟩ := List.mem_map.mp hz
      obtain ⟨ha, hb2⟩ := hse iv hiv
      have h4 := hend_le iv hiv
      rw [decide_eq_true_eq]
      subst hfz
      constructor
      · exact ha
      · omega
    have hen : ((singlePairs r.structs).map (fun iv => iv.«end»)).countP
        (fun z => decide (0 ≤ z ∧ z < (((lastEnd r.structs + 1).toNat : Nat) : Int))) =
        ((singlePairs r.structs).map (fun iv => iv.«end»)).length := by
      refine List.countP_eq_length.mpr ?_
      intro z hz
      obtain ⟨iv, hiv, hfz⟩ := List.mem_map.mp hz
      obtain ⟨ha, hb2⟩ := hse iv hiv
      have h4 := hend_le iv hiv
      rw [decide_eq_true_eq]
      subst hfz
      constructor
      · omega
      · omega
    have hmono : ∀ k : Nat,
        ((singlePairs r.structs).map (fun iv => iv.«end»)).countP
          (fun z => decide (0 ≤ z ∧ z < (k : Int))) ≤
        ((singlePairs r.structs).map subsequence.start).countP
          (fun z => decide (0 ≤ z ∧ z < (k : Int))) := by
      intro k
      rw [List.countP_map, List.countP_map]
      refine List.countP_mono_left ?_
      intro iv hiv hcz
      obtain ⟨ha, hb2⟩ := hse iv hiv
      show decide (0 ≤ iv.start ∧ iv.start < (k : Int)) = true
      have hcz2 : 0 ≤ iv.«end» ∧ iv.«end» < (k : Int) := by
        have : decide (0 ≤ iv.«end» ∧ iv.«end» < (k : Int)) = true := hcz
        exact decide_eq_true_eq.mp this
      rw [decide_eq_true_eq]
      constructor
      · exact ha
      · omega
    unfold dotBracketBalanced
    rw [hdb]
    show balancedB (String.mk bOut) = true
    unfold balancedB
    rw [Bool.and_eq_true]
    constructor
    · show (bOut.count '(' == bOut.count ')') = true
      rw [hform, hcount_open, hcount_close, hsn, hen, List.length_map, List.length_map]
      exact beq_self_eq_true _
    · rw [List.all_eq_true]
      intro k hk
      rw [List.mem_range] at hk
      have hkL : k ≤ (lastEnd r.structs + 1).toNat := by
        have hsl : (String.mk bOut).data.length = bOut.length := rfl
        rw [hsl, hblen] at hk
        omega
      rw [decide_eq_true_eq]
      show (bOut.take k).count ')' ≤ (bOut.take k).count '('
      rw [hform, ← List.map_take, List.take_range, inf_eq_left.mpr hkL,
        hcount_open, hcount_close]
      exact hmono k

/-- Witness for C4 (amended) at a concrete nested two-pair Result. -/
theorem dotBracket_balanced_wf_witness :
    dotBracketBalanced ⟨[⟨"hairpin", [⟨0, 5⟩], GFloat.fin ⟨-3, 1⟩⟩,
      ⟨"inner", [⟨1, 4⟩], GFloat.fin ⟨0, 1⟩⟩]⟩ = true :=
  dotBracket_balanced_wf ⟨[⟨"hairpin", [⟨0, 5⟩], GFloat.fin ⟨-3, 1⟩⟩,
      ⟨"inner", [⟨1, 4⟩], GFloat.fin ⟨0, 1⟩⟩]⟩
    (by decide) (by decide) (by decide) (by decide)
